import Mathlib

/-
  Verification of the market-data acquisition and ranking engine.

  Shallow embedding of the Python sources under src/backend:
  - services/market_data.py   (code normalization, gap filler, today refresh, store writer)
  - services/data_storage.py  (legacy store writer / batch update)
  - services/ranking.py        (ranking service used by api/routes.py)
  - services/ranking_calculator.py (legacy ranking module used by api/routes/data.py)
  - database/models.py         (canonical store schema)

  Modelling conventions:
  - prices and ratios are rationals (Python floats modelled exactly);
  - dates are integers counting days, day 0 = 2026-01-05 (config.BASELINE_DATE),
    which is a Monday, so Python's date.weekday() is day mod 7;
  - a nullable column or dict value is an Option;
  - Python code paths that would raise (e.g. arithmetic on None) are modelled
    by returning none from an Option-valued embedding;
  - external provider calls are an oracle parameter; the embedding additionally
    returns the list of dates for which the oracle was consulted, so that
    "number of provider requests" is observable.
-/

namespace STB



/-- config.py: BASELINE_DATE = "2026-01-05", modelled as day 0 (a Monday). -/
def BASELINE_DATE : Int := 0

/-- market_data.py is_trading_day (lines 49-73): weekends (weekday >= 5) are not
trading days, every other day is. Day 0 is a Monday so weekday = day mod 7. -/
def is_trading_day (d : Int) : Bool := d.emod 7 < 5

/-- market_data.py should_skip_api_request (lines 76-97): skip exactly on
non-trading days. -/
def should_skip_api_request (d : Int) : Bool := !(is_trading_day d)

/-- Python truthiness of an optional float: None and 0 are falsy. -/
def truthyQ : Option ℚ → Bool
  | none => false
  | some x => x != 0

/-- Python truthiness of an optional dict/string payload: None and the empty
value are falsy. -/
def truthyS : Option String → Bool
  | none => false
  | some s => s != ""

/-- database/models.py MarketData (lines 76-94): one row of the market_data
table. `id` is the autoincrement primary key. close_price is declared NOT NULL
in the schema but the services defensively test it for None, so it is an
Option here. -/
structure MarketRow where
  id : Nat
  asset_id : Nat
  date : Int
  close_price : Option ℚ
  volume : Option ℚ
  turnover_rate : Option ℚ
  pe : Option ℚ
  pb : Option ℚ
  market_cap : Option ℚ
  eps_forecast : Option ℚ
  additional_data : Option String
deriving DecidableEq, Repr

/-- database/models.py Asset (lines 25-46), fields used by the engine. -/
structure AssetRec where
  id : Nat
  user_id : Nat
  baseline_price : Option ℚ
  baseline_date : Option Int
deriving DecidableEq, Repr

/-- database/models.py User (lines 10-22), fields used by the engine. -/
structure UserRec where
  id : Nat
  is_active : Bool
deriving DecidableEq, Repr

/-- The database state seen by the services. -/
structure DB where
  users : List UserRec
  assets : List AssetRec
  market : List MarketRow
deriving DecidableEq, Repr

/-- Query pattern `query(MarketData).filter(asset_id == aid, date == d).first()`. -/
def findRecord (rows : List MarketRow) (aid : Nat) (d : Int) : Option MarketRow :=
  rows.find? (fun r => r.asset_id == aid && r.date == d)

/-- `.filter(cond).order_by(...).first()`: the best row (per `better`) among
the rows satisfying cond, or none. -/
def pickBest (cond : MarketRow → Bool) (better : MarketRow → MarketRow → Bool)
    (rows : List MarketRow) : Option MarketRow :=
  rows.foldl
    (fun acc r =>
      if cond r then
        match acc with
        | none => some r
        | some b => if better b r then some r else some b
      else acc)
    none

/-- Query pattern `.filter(asset_id == aid, date < d).order_by(date.desc()).first()`:
the row with the greatest date strictly before d. -/
def latestBefore (rows : List MarketRow) (aid : Nat) (d : Int) : Option MarketRow :=
  pickBest (fun r => r.asset_id == aid && r.date < d) (fun b r => b.date < r.date) rows

/-- Query pattern `.filter(asset_id == aid, date <= d).order_by(date.desc()).first()`. -/
def latestOnOrBefore (rows : List MarketRow) (aid : Nat) (d : Int) : Option MarketRow :=
  pickBest (fun r => r.asset_id == aid && r.date ≤ d) (fun b r => b.date < r.date) rows

/-- Query pattern `.filter(asset_id == aid, date >= d).order_by(date.asc()).first()`. -/
def earliestOnOrAfter (rows : List MarketRow) (aid : Nat) (d : Int) : Option MarketRow :=
  pickBest (fun r => r.asset_id == aid && d ≤ r.date) (fun b r => r.date < b.date) rows

/-- Query `.filter(asset_id == aid, pe_ratio != None, pe_ratio != 0)
.order_by(date.desc()).first()` (market_data.py lines 2174-2178). -/
def latestWithPE (rows : List MarketRow) (aid : Nat) : Option MarketRow :=
  pickBest (fun r => r.asset_id == aid && r.pe != none && r.pe != some 0)
    (fun b r => b.date < r.date) rows

/-- Query `.filter(asset_id == aid).order_by(date.desc()).first()`
(market_data.py lines 2181-2183). -/
def latestAny (rows : List MarketRow) (aid : Nat) : Option MarketRow :=
  pickBest (fun r => r.asset_id == aid) (fun b r => b.date < r.date) rows

/- ===== Code normalization (market_data.py lines 178-213) ===== -/

/-- Python str.replace semantics on character lists: replace all
non-overlapping occurrences of pat, scanning left to right. The fuel argument
bounds the number of scanning steps; each step consumes at least one input
character, so fuel = input length is always enough. -/
def replaceFuel (pat rep : List Char) : Nat → List Char → List Char
  | 0, s => s
  | _ + 1, [] => []
  | fuel + 1, c :: cs =>
    if pat ≠ [] ∧ pat.isPrefixOf (c :: cs) then
      rep ++ replaceFuel pat rep fuel ((c :: cs).drop pat.length)
    else
      c :: replaceFuel pat rep fuel cs

/-- Python `s.replace(pat, rep)` for non-empty pat. -/
def pyReplace (s pat rep : String) : String :=
  ⟨replaceFuel pat.data rep.data s.data.length s.data⟩

/-- Python `s.startswith(c)` for a single character. -/
def startsWithChar (s : String) (c : Char) : Bool :=
  match s.data with
  | [] => false
  | a :: _ => a == c

/-- market_data.py normalize_stock_code (lines 178-192): strip the market
suffixes ".SH", ".SZ", ".SS" and then the prefixes "SH", "SZ" - with Python's
case-sensitive str.replace. -/
def normalize_stock_code (code : String) : String :=
  let c1 := pyReplace (pyReplace (pyReplace code ".SH" "") ".SZ" "") ".SS" ""
  pyReplace (pyReplace c1 "SH" "") "SZ" ""

/-- market_data.py convert_to_yfinance_symbol (lines 195-213): normalize, then
infer the exchange suffix from the leading digit (6 gives ".SS",
0 or 3 give ".SZ", anything else defaults to ".SS"). -/
def convert_to_yfinance_symbol (code : String) : String :=
  let clean := normalize_stock_code code
  if startsWithChar clean '6' then clean ++ ".SS"
  else if startsWithChar clean '0' || startsWithChar clean '3' then clean ++ ".SZ"
  else clean ++ ".SS"

/- ===== Change rate (ranking_calculator.py lines 15-19, identical in
ranking.py lines 12-16) ===== -/

/-- calculate_change_rate: returns 0.0 when the baseline is None or 0,
otherwise ((current - baseline) / baseline) * 100. -/
def calculate_change_rate (current : ℚ) (baseline : Option ℚ) : ℚ :=
  match baseline with
  | none => 0
  | some b => if b = 0 then 0 else ((current - b) / b) * 100

/-- calculate_change_rate as called on a possibly-None current price
(`market_data.close_price`): Python would raise a TypeError on
`None - float`, modelled as none. The None/0 baseline guard fires before the
subtraction, so those cases still return 0.0. -/
def calculate_change_rate_checked (current : Option ℚ) (baseline : Option ℚ) : Option ℚ :=
  match baseline with
  | none => some 0
  | some b =>
    if b = 0 then some 0
    else
      match current with
      | none => none
      | some c => some (((c - b) / b) * 100)

/- ===== Ranking computation ===== -/

/-- `query(Asset).join(User).filter(User.is_active == True).all()`
(ranking.py line 60, ranking_calculator.py line 46). -/
def activeAssets (db : DB) : List AssetRec :=
  db.assets.filter (fun a => db.users.any (fun u => u.id == a.user_id && u.is_active))

/-- One output dict of calculate_asset_rankings, restricted to the fields the
spec talks about: asset_id, user_id, change_rate (None when no rate could be
computed) and rank (absent, i.e. None, for unranked entries). -/
structure Entry where
  asset_id : Nat
  user_id : Nat
  change_rate : Option ℚ
  rank : Option Nat
deriving DecidableEq, Repr

/-- An entry of the rankings_with_rate list before ranks are assigned:
its change_rate is an actual float. -/
structure RatedEntry where
  asset_id : Nat
  user_id : Nat
  change_rate : ℚ
deriving DecidableEq, Repr

/-- Python `list.sort(key=lambda x: x["change_rate"], reverse=True)`: a stable
descending sort on the change rate. -/
def sortDesc (l : List RatedEntry) : List RatedEntry :=
  l.mergeSort (fun x y => decide (y.change_rate ≤ x.change_rate))

/-- `for idx, item in enumerate(...): item["rank"] = idx + 1` starting at
index i (ranking.py lines 124-125, ranking_calculator.py lines 80-81). -/
def assignRanks (i : Nat) : List RatedEntry → List Entry
  | [] => []
  | e :: rest => ⟨e.asset_id, e.user_id, some e.change_rate, some (i + 1)⟩ :: assignRanks (i + 1) rest

namespace RankingCalc

/-- ranking_calculator.py get_or_set_baseline_price (lines 22-40): the stored
baseline price if set, else the close price of the record on the baseline
date, else None. (The source also caches the resolved price back onto the
asset row; that cache is re-read through the first step on later calls.) -/
def get_or_set_baseline_price (a : AssetRec) (db : DB) : Option ℚ :=
  match a.baseline_price with
  | some v => some v
  | none =>
    match findRecord db.market a.id BASELINE_DATE with
    | some r => r.close_price
    | none => none

/-- The per-asset loop of ranking_calculator.py calculate_asset_rankings
(lines 50-74): assets whose baseline resolves to None are skipped, as are
assets with no record on the target date; the whole computation is none when
Python would raise (None close price fed into the change-rate subtraction). -/
def collectEntries (db : DB) (target : Int) : List AssetRec → Option (List RatedEntry)
  | [] => some []
  | a :: rest =>
    match get_or_set_baseline_price a db with
    | none => collectEntries db target rest
    | some b =>
      match findRecord db.market a.id target with
      | none => collectEntries db target rest
      | some md =>
        match calculate_change_rate_checked md.close_price (some b) with
        | none => none
        | some rate => (collectEntries db target rest).map (⟨a.id, a.user_id, rate⟩ :: ·)

/-- ranking_calculator.py calculate_asset_rankings (lines 43-83). -/
def calculate_asset_rankings (db : DB) (target : Int) : Option (List Entry) :=
  (collectEntries db target (activeAssets db)).map (fun l => assignRanks 0 (sortDesc l))

end RankingCalc

namespace RankingSvc

/-- ranking.py get_or_set_baseline_price (lines 19-54): the stored baseline
price if set; else the close price of the record on the baseline date; else
the close price of the first record on or after the baseline date; else None.
(The source also caches the resolved price and date back onto the asset row.) -/
def get_or_set_baseline_price (a : AssetRec) (db : DB) : Option ℚ :=
  match a.baseline_price with
  | some v => some v
  | none =>
    match findRecord db.market a.id BASELINE_DATE with
    | some r => r.close_price
    | none =>
      match earliestOnOrAfter db.market a.id BASELINE_DATE with
      | some r => r.close_price
      | none => none

/-- The per-asset loop of ranking.py calculate_asset_rankings (lines 66-118):
each active asset lands either in rankings_with_rate (a computed change rate)
or in rankings_without_rate (no usable market data or baseline; change_rate
None, no rank key). The result is none when Python would raise. -/
def collect (db : DB) (target : Int) : List AssetRec → Option (List RatedEntry × List Entry)
  | [] => some ([], [])
  | a :: rest =>
    match latestOnOrBefore db.market a.id target with
    | none =>
      (collect db target rest).map (fun (w, wo) => (w, ⟨a.id, a.user_id, none, none⟩ :: wo))
    | some md =>
      let b := get_or_set_baseline_price a db
      if b = none ∨ b = some 0 then
        (collect db target rest).map (fun (w, wo) => (w, ⟨a.id, a.user_id, none, none⟩ :: wo))
      else
        match calculate_change_rate_checked md.close_price b with
        | none => none
        | some rate =>
          (collect db target rest).map (fun (w, wo) => (⟨a.id, a.user_id, rate⟩ :: w, wo))

/-- ranking.py calculate_asset_rankings (lines 57-132): rank the entries that
have a change rate, then append the unranked entries after them. -/
def calculate_asset_rankings (db : DB) (target : Int) : Option (List Entry) :=
  (collect db target (activeAssets db)).map
    (fun (w, wo) => assignRanks 0 (sortDesc w) ++ wo)

end RankingSvc

/- ===== Canonical store writer (market_data.py lines 1784-1893) ===== -/

/-- One normalized row dict produced by parse_market_data and consumed by
store_market_data. A none field models an absent or None dict value — the
update path treats the two identically. -/
structure Payload where
  date : Int
  close_price : Option ℚ
  volume : Option ℚ
  turnover_rate : Option ℚ
  pe : Option ℚ
  pb : Option ℚ
  market_cap : Option ℚ
  eps_forecast : Option ℚ
  additional_data : Option String
deriving DecidableEq, Repr

namespace MarketSvc

/-- store_market_data update path (market_data.py lines 1820-1853):
close_price, volume and turnover_rate are overwritten unconditionally with the
incoming values; pe_ratio, pb_ratio and eps_forecast only when the incoming
value is not None; market_cap only when the incoming value is > 0;
additional_data only when truthy. -/
def updateExisting (e : MarketRow) (p : Payload) : MarketRow :=
  { e with
    close_price := p.close_price
    volume := p.volume
    turnover_rate := p.turnover_rate
    pe := match p.pe with
      | some v => some v
      | none => e.pe
    pb := match p.pb with
      | some v => some v
      | none => e.pb
    market_cap := match p.market_cap with
      | some v => if 0 < v then some v else e.market_cap
      | none => e.market_cap
    eps_forecast := match p.eps_forecast with
      | some v => some v
      | none => e.eps_forecast
    additional_data := if truthyS p.additional_data then p.additional_data else e.additional_data }

/-- store_market_data insert path (market_data.py lines 1856-1875): a
market_cap of exactly 0 is normalized to None. -/
def mkNewRow (nid aid : Nat) (p : Payload) : MarketRow :=
  { id := nid
    asset_id := aid
    date := p.date
    close_price := p.close_price
    volume := p.volume
    turnover_rate := p.turnover_rate
    pe := p.pe
    pb := p.pb
    market_cap := match p.market_cap with
      | some v => if v = 0 then none else some v
      | none => none
    eps_forecast := p.eps_forecast
    additional_data := if truthyS p.additional_data then p.additional_data else none }

/-- Autoincrement primary key for an insert. -/
def nextId (rows : List MarketRow) : Nat :=
  rows.foldl (fun m r => max m r.id) 0 + 1

/-- The existing-record check and branch of store_market_data
(lines 1814-1875): look up (asset_id, date); update the found row in place,
else append a fresh row. The Bool reports whether an update happened. -/
def upsertRow (aid nid : Nat) (p : Payload) : List MarketRow → List MarketRow × Bool
  | [] => ([mkNewRow nid aid p], false)
  | r :: rest =>
    if r.asset_id == aid && r.date == p.date then (updateExisting r p :: rest, true)
    else (r :: (upsertRow aid nid p rest).1, (upsertRow aid nid p rest).2)

/-- Lines 1880-1884: a baseline-date payload with a truthy close price also
refreshes the asset's stored baseline. -/
def baselineTouch (a : AssetRec) (p : Payload) : AssetRec :=
  if p.date == BASELINE_DATE && truthyQ p.close_price then
    { a with baseline_price := p.close_price, baseline_date := some BASELINE_DATE }
  else a

/-- The per-payload loop of store_market_data (lines 1806-1888), threading the
market rows and the asset through the batch and counting processed records. -/
def storeLoop (aid : Nat) : List Payload → List MarketRow → AssetRec → List MarketRow × AssetRec × Nat
  | [], rows, a => (rows, a, 0)
  | p :: rest, rows, a =>
    ((storeLoop aid rest (upsertRow aid (nextId rows) p rows).1 (baselineTouch a p)).1,
     (storeLoop aid rest (upsertRow aid (nextId rows) p rows).1 (baselineTouch a p)).2.1,
     (storeLoop aid rest (upsertRow aid (nextId rows) p rows).1 (baselineTouch a p)).2.2 + 1)

/-- market_data.py store_market_data (lines 1784-1893). Returns the new
database state and the processed-record count (0 if the asset is unknown). -/
def store_market_data (db : DB) (aid : Nat) (ps : List Payload) : DB × Nat :=
  match db.assets.find? (fun a => a.id == aid) with
  | none => (db, 0)
  | some a =>
    ({ db with
        market := (storeLoop aid ps db.market a).1
        assets := db.assets.map
          (fun x => if x.id == aid then (storeLoop aid ps db.market a).2.1 else x) },
      (storeLoop aid ps db.market a).2.2)

/-- At most one market row per (asset_id, date): the invariant the spec calls
"one row per (instrument_id, date)". -/
def UniqKey (rows : List MarketRow) : Prop :=
  List.Pairwise (fun r s => ¬(r.asset_id = s.asset_id ∧ r.date = s.date)) rows

/-- What the market_data table schema itself enforces
(database/models.py lines 76-94): the primary key `id` is unique, and
asset_id, date, close_price are NOT NULL. The model declares no
UniqueConstraint and no unique index on (asset_id, date). -/
def marketDataSchemaOk (rows : List MarketRow) : Prop :=
  List.Pairwise (fun r s => r.id ≠ s.id) rows ∧ ∀ r ∈ rows, r.close_price ≠ none

/- ===== Historical gap filler (market_data.py lines 2126-2614) ===== -/

/-- A single-day provider result: fetch_asset_data returns a list of row
dicts, and the gap filler uses its first element; none models the empty list
(fetch_asset_data catches every provider exception and returns []). -/
structure FetchRow where
  close_price : Option ℚ
  volume : Option ℚ
  turnover_rate : Option ℚ
  pe : Option ℚ
  pb : Option ℚ
  market_cap : Option ℚ
  eps_forecast : Option ℚ
  additional_data : Option String
deriving DecidableEq, Repr

/-- The reference indicators used to extrapolate historical ratios
(market_data.py lines 2185-2199). -/
structure RefVals where
  pe : Option ℚ
  pb : Option ℚ
  market_cap : Option ℚ
  eps : Option ℚ
  price : Option ℚ
deriving DecidableEq, Repr

/-- market_data.py lines 2174-2201: the reference record is the most recent
row with a non-null, non-zero pe_ratio, falling back to the most recent row of
any shape; its indicators are kept only when truthy (market_cap only when
positive), its close price is kept as is. -/
def computeRefVals (rows : List MarketRow) (aid : Nat) : RefVals :=
  let lwm := match latestWithPE rows aid with
    | some m => some m
    | none => latestAny rows aid
  match lwm with
  | none => ⟨none, none, none, none, none⟩
  | some m =>
    { pe := if truthyQ m.pe then m.pe else none
      pb := if truthyQ m.pb then m.pb else none
      market_cap := match m.market_cap with
        | some v => if 0 < v then some v else none
        | none => none
      eps := if truthyQ m.eps_forecast then m.eps_forecast else none
      price := m.close_price }

/-- The guard `ref_X and ref_price and ref_price > 0` followed by
`ref_X * (hist_price / ref_price)`: derives a ratio from the reference when
both the reference ratio and the reference price are truthy and the price is
positive; none when the guard fails. -/
def deriveRatio (refv : Option ℚ) (refPrice : Option ℚ) (hp : ℚ) : Option ℚ :=
  match refv, refPrice with
  | some r, some p0 =>
    if r != 0 && (p0 != 0 && 0 < p0) then some (r * (hp / p0)) else none
  | _, _ => none

/-- Record completeness tests of the gap filler
(market_data.py lines 2386-2389 and 2424-2427). -/
def has_price (r : MarketRow) : Bool := r.close_price != none

def has_pe (r : MarketRow) : Bool := r.pe != none && r.pe != some 0

def has_pb (r : MarketRow) : Bool := r.pb != none && r.pb != some 0

def has_mcap_pos (r : MarketRow) : Bool :=
  match r.market_cap with
  | some v => 0 < v
  | none => false

def has_metrics (r : MarketRow) : Bool := has_pe r || has_pb r || has_mcap_pos r

/-- The missing-date scan of update_asset_data (market_data.py lines
2361-2403): walk backwards from today-1 to the baseline date, at most
MAX_BACKTRACK_DAYS = 5 trading days deep; non-trading days are stepped over
without counting; a date is missing when its record is absent or fails the
completeness test `has_price and has_metrics and has_pe and has_pb`. The fuel
argument bounds the walk; each step moves one day back, so
(today - baseline) + 1 steps always suffice. -/
def scanMissing (rows : List MarketRow) (aid : Nat) : Nat → Int → Nat → List Int
  | 0, _, _ => []
  | fuel + 1, cd, dc =>
    if BASELINE_DATE ≤ cd ∧ dc < 5 then
      if !(is_trading_day cd) then scanMissing rows aid fuel (cd - 1) dc
      else
        match findRecord rows aid cd with
        | some r =>
          if has_price r && has_metrics r && has_pe r && has_pb r then
            scanMissing rows aid fuel (cd - 1) (dc + 1)
          else cd :: scanMissing rows aid fuel (cd - 1) (dc + 1)
        | none => cd :: scanMissing rows aid fuel (cd - 1) (dc + 1)
    else []

/-- Mutate the first row matching (asset_id, date), as the ORM does with the
object returned by `.first()`. -/
def updateFirst (f : MarketRow → MarketRow) (aid : Nat) (d : Int) : List MarketRow → List MarketRow
  | [] => []
  | r :: rest =>
    if r.asset_id == aid && r.date == d then f r :: rest
    else r :: updateFirst f aid d rest

/-- market_data.py lines 2446-2490: a record that has a price but misses PE or
PB, refilled from a provider row; missing ratios are derived from the
reference scaled by the price ratio. PE/PB derivation uses the close price as
stored before this fill (lines 2452-2462); the market_cap derivation runs
after the close price may have been overwritten (lines 2465-2477). -/
def fillMetrics (e : MarketRow) (hist : FetchRow) (rv : RefVals) : MarketRow :=
  let pe' := match hist.pe with
    | some v => some v
    | none =>
      if !(has_pe e) then
        match e.close_price with
        | some hp =>
          match deriveRatio rv.pe rv.price hp with
          | some d => some d
          | none => e.pe
        | none => e.pe
      else e.pe
  let pb' := match hist.pb with
    | some v => some v
    | none =>
      if !(has_pb e) then
        match e.close_price with
        | some hp =>
          match deriveRatio rv.pb rv.price hp with
          | some d => some d
          | none => e.pb
        | none => e.pb
      else e.pb
  let close' := match hist.close_price with
    | some v => some v
    | none => e.close_price
  let volume' := match hist.volume with
    | some v => some v
    | none => e.volume
  let turnover' := match hist.turnover_rate with
    | some v => some v
    | none => e.turnover_rate
  let mcap' := match hist.market_cap with
    | some v =>
      if 0 < v then some v
      else
        match close' with
        | some hp =>
          match deriveRatio rv.market_cap rv.price hp with
          | some d => some d
          | none => e.market_cap
        | none => e.market_cap
    | none =>
      match close' with
      | some hp =>
        match deriveRatio rv.market_cap rv.price hp with
        | some d => some d
        | none => e.market_cap
      | none => e.market_cap
  let eps' := match hist.eps_forecast with
    | some v => some v
    | none => if truthyQ rv.eps then rv.eps else e.eps_forecast
  { e with
    pe := pe', pb := pb', close_price := close', volume := volume',
    turnover_rate := turnover', market_cap := mcap', eps_forecast := eps'
    additional_data := if truthyS hist.additional_data then hist.additional_data else e.additional_data }

/-- market_data.py lines 2509-2545: a record with no usable price, rebuilt
from a provider row whose close price hp is truthy. -/
def refillRecord (e : MarketRow) (hist : FetchRow) (rv : RefVals) (hp : ℚ) : MarketRow :=
  { e with
    close_price := some hp
    volume := hist.volume
    turnover_rate := hist.turnover_rate
    pe := match hist.pe with
      | some v => some v
      | none =>
        match deriveRatio rv.pe rv.price hp with
        | some d => some d
        | none => e.pe
    pb := match hist.pb with
      | some v => some v
      | none =>
        match deriveRatio rv.pb rv.price hp with
        | some d => some d
        | none => e.pb
    market_cap := match hist.market_cap with
      | some v =>
        if 0 < v then some v
        else
          match deriveRatio rv.market_cap rv.price hp with
          | some d => some d
          | none => e.market_cap
      | none =>
        match deriveRatio rv.market_cap rv.price hp with
        | some d => some d
        | none => e.market_cap
    eps_forecast := match hist.eps_forecast with
      | some v => some v
      | none => if truthyQ rv.eps then rv.eps else e.eps_forecast
    additional_data := if truthyS hist.additional_data then hist.additional_data else e.additional_data }

/-- market_data.py lines 2560-2607: a brand new record for a date with no
stored row, from a provider row; none when the provider price is not truthy
(nothing is stored then). Missing ratios are derived from the reference
scaled by the price ratio and the EPS estimate is carried forward unchanged. -/
def buildNewHistRecord (nid aid : Nat) (d : Int) (hist : FetchRow) (rv : RefVals) :
    Option MarketRow :=
  match hist.close_price with
  | none => none
  | some hp =>
    if hp = 0 then none
    else some
      { id := nid
        asset_id := aid
        date := d
        close_price := some hp
        volume := hist.volume
        turnover_rate := hist.turnover_rate
        pe := match hist.pe with
          | some v => some v
          | none =>
            match deriveRatio rv.pe rv.price hp with
            | some dv => some dv
            | none => none
        pb := match hist.pb with
          | some v => some v
          | none =>
            match deriveRatio rv.pb rv.price hp with
            | some dv => some dv
            | none => none
        market_cap := match hist.market_cap with
          | some v =>
            if 0 < v then some v
            else
              match deriveRatio rv.market_cap rv.price hp with
              | some dv => some dv
              | none => none
          | none =>
            match deriveRatio rv.market_cap rv.price hp with
            | some dv => some dv
            | none => none
        eps_forecast := match hist.eps_forecast with
          | some v => some v
          | none => if truthyQ rv.eps then rv.eps else none
        additional_data := if truthyS hist.additional_data then hist.additional_data else none }

/-- The per-missing-date loop of update_asset_data (market_data.py lines
2406-2614), with a provider oracle. Besides the updated rows it returns, in
order, the dates for which a provider request was issued. -/
def processDates (aid : Nat) (rv : RefVals) (fetch : Int → Option FetchRow) :
    List Int → List MarketRow → List MarketRow × List Int
  | [], rows => (rows, [])
  | d :: rest, rows =>
    if should_skip_api_request d then processDates aid rv fetch rest rows
    else
      match findRecord rows aid d with
      | some e =>
        if has_price e && has_pe e && has_pb e then
          processDates aid rv fetch rest rows
        else if has_price e && (!(has_pe e) || !(has_pb e)) then
          let rows1 := match fetch d with
            | some hist => updateFirst (fun r => fillMetrics r hist rv) aid d rows
            | none => rows
          ((processDates aid rv fetch rest rows1).1, d :: (processDates aid rv fetch rest rows1).2)
        else
          let rows1 := match fetch d with
            | some hist =>
              match hist.close_price with
              | some hp =>
                if hp = 0 then rows
                else updateFirst (fun r => refillRecord r hist rv hp) aid d rows
              | none => rows
            | none => rows
          ((processDates aid rv fetch rest rows1).1, d :: (processDates aid rv fetch rest rows1).2)
      | none =>
        let rows1 := match fetch d with
          | some hist =>
            match buildNewHistRecord (nextId rows) aid d hist rv with
            | some nr => rows ++ [nr]
            | none => rows
          | none => rows
        ((processDates aid rv fetch rest rows1).1, d :: (processDates aid rv fetch rest rows1).2)

/-- The whole historical phase of update_asset_data: compute the reference,
scan for missing dates, process them. -/
def gapFillPass (rows : List MarketRow) (aid : Nat) (today : Int)
    (fetch : Int → Option FetchRow) : List MarketRow × List Int :=
  let rv := computeRefVals rows aid
  let fuel := (today - BASELINE_DATE).toNat + 1
  let missing := scanMissing rows aid fuel (today - 1) 0
  processDates aid rv fetch missing rows

/- ===== Today refresh (market_data.py lines 2203-2338) ===== -/

/-- Result of the today phase: the rows plus the today_updated and
today_is_temporary flags reported in the update result. -/
structure TodayResult where
  rows : List MarketRow
  today_updated : Bool
  today_is_temporary : Bool
  new_data_count : Nat
deriving DecidableEq, Repr

/-- Lines 2245-2260: overwrite the existing today record with the provider
row; indicators only when the provider returned them (market_cap only when
positive). -/
def overwriteToday (e : MarketRow) (t : FetchRow) : MarketRow :=
  { e with
    close_price := t.close_price
    volume := t.volume
    turnover_rate := t.turnover_rate
    pe := match t.pe with
      | some v => some v
      | none => e.pe
    pb := match t.pb with
      | some v => some v
      | none => e.pb
    market_cap := match t.market_cap with
      | some v => if 0 < v then some v else e.market_cap
      | none => e.market_cap
    eps_forecast := match t.eps_forecast with
      | some v => some v
      | none => e.eps_forecast
    additional_data := if truthyS t.additional_data then t.additional_data else e.additional_data }

/-- Lines 2267-2278: a fresh today record from the provider row. -/
def mkTodayRow (nid aid : Nat) (today : Int) (t : FetchRow) : MarketRow :=
  { id := nid
    asset_id := aid
    date := today
    close_price := t.close_price
    volume := t.volume
    turnover_rate := t.turnover_rate
    pe := t.pe
    pb := t.pb
    market_cap := match t.market_cap with
      | some v => if 0 < v then some v else none
      | none => none
    eps_forecast := t.eps_forecast
    additional_data := if truthyS t.additional_data then t.additional_data else none }

/-- Lines 2306-2312: overwrite the existing today record with the fields of
the most recent prior record (additional_data untouched). -/
def copyFrom (e L : MarketRow) : MarketRow :=
  { e with
    close_price := L.close_price
    volume := L.volume
    turnover_rate := L.turnover_rate
    pe := L.pe
    pb := L.pb
    market_cap := L.market_cap
    eps_forecast := L.eps_forecast }

/-- Lines 2316-2327: a fresh today record copied from the most recent prior
record. -/
def mkCopyRow (nid aid : Nat) (today : Int) (L : MarketRow) : MarketRow :=
  { id := nid
    asset_id := aid
    date := today
    close_price := L.close_price
    volume := L.volume
    turnover_rate := L.turnover_rate
    pe := L.pe
    pb := L.pb
    market_cap := L.market_cap
    eps_forecast := L.eps_forecast
    additional_data := L.additional_data }

/-- market_data.py lines 2216-2338, the today phase: a live request is always
issued (fetchRes is its outcome; none models an empty result —
fetch_asset_data swallows provider exceptions into an empty list). On a
truthy price the today record is overwritten or created from the provider
row; on an empty result the most recent prior record is borrowed and the
result is flagged temporary. -/
def todayRefresh (rows : List MarketRow) (aid : Nat) (today : Int)
    (fetchRes : Option FetchRow) : TodayResult :=
  match fetchRes with
  | some t =>
    match t.close_price with
    | some hp =>
      if hp = 0 then ⟨rows, false, false, 0⟩
      else
        match findRecord rows aid today with
        | some _ => ⟨updateFirst (fun e => overwriteToday e t) aid today rows, true, false, 0⟩
        | none => ⟨rows ++ [mkTodayRow (nextId rows) aid today t], true, false, 1⟩
    | none => ⟨rows, false, false, 0⟩
  | none =>
    match latestBefore rows aid today with
    | some L =>
      match findRecord rows aid today with
      | some _ => ⟨updateFirst (fun e => copyFrom e L) aid today rows, true, true, 0⟩
      | none => ⟨rows ++ [mkCopyRow (nextId rows) aid today L], true, true, 1⟩
    | none => ⟨rows, false, false, 0⟩

/- ===== Batch update (market_data.py lines 2664-2719) ===== -/

/-- The outcome of update_asset_data for one asset, as seen by the batch loop:
either a result dict with its success flag, or a raised exception. -/
inductive UpdOutcome where
  | ok (success : Bool)
  | raised
deriving DecidableEq, Repr

/-- One entry of the details list of the batch result. -/
structure BatchDetail where
  asset_id : Nat
  success : Bool
deriving DecidableEq, Repr

/-- The batch result dict: total, success and failed counters plus the
per-asset details. -/
structure BatchResult where
  total : Nat
  success : Nat
  failed : Nat
  details : List BatchDetail
deriving DecidableEq, Repr

/-- The per-asset loop of update_all_assets_data (lines 2678-2716): every
asset is processed in order; a raised exception is caught, counted as failed
and recorded with success=False, and the loop continues. -/
def batchGo (run : Nat → UpdOutcome) : List AssetRec → Nat × Nat × List BatchDetail
  | [] => (0, 0, [])
  | a :: rest =>
    let prev := batchGo run rest
    match run a.id with
    | .ok true => (prev.1 + 1, prev.2.1, ⟨a.id, true⟩ :: prev.2.2)
    | .ok false => (prev.1, prev.2.1 + 1, ⟨a.id, false⟩ :: prev.2.2)
    | .raised => (prev.1, prev.2.1 + 1, ⟨a.id, false⟩ :: prev.2.2)

/-- market_data.py update_all_assets_data (lines 2664-2719). -/
def update_all_assets_data (assets : List AssetRec) (run : Nat → UpdOutcome) : BatchResult :=
  let (s, f, ds) := batchGo run assets
  ⟨assets.length, s, f, ds⟩

end MarketSvc

/- ===== Concrete instances used by counterexamples and witnesses ===== -/

/-- One active user owning one asset with no baseline and no market data. -/
def c1db : DB := ⟨[⟨1, true⟩], [⟨1, 1, none, none⟩], []⟩

/-- A stored record with a close price and a non-zero P/E but a null P/B. -/
def c2row : MarketRow := ⟨1, 1, 0, some 10, none, none, some 20, none, none, none, none⟩

/-- A fully settled record: price, non-zero P/E and non-zero P/B. -/
def c2wrow : MarketRow := ⟨1, 1, 0, some 10, none, none, some 20, some 3, none, none, none⟩

/-- An existing record with every field populated. -/
def c3row : MarketRow := ⟨1, 1, 0, some 10, some 100, some 1, some 20, some 2, some 1000, some 5, none⟩

/-- An incoming payload carrying only a close price. -/
def c3p : Payload := ⟨0, some 11, none, none, none, none, none, none, none⟩

/-- An asset with no stored baseline price. -/
def c4asset : AssetRec := ⟨1, 1, none, none⟩

/-- A record dated after the baseline date (day 1), none on the baseline date. -/
def c4row : MarketRow := ⟨1, 1, 1, some 50, none, none, none, none, none, none, none⟩

/-- Database for the baseline-resolution counterexample. -/
def c4db : DB := ⟨[⟨1, true⟩], [c4asset], [c4row]⟩

/-- One active user with two assets: asset 1 has no baseline and no data,
asset 2 has baseline 100 and a record priced 110 on day 0. -/
def c1wdb : DB :=
  ⟨[⟨1, true⟩], [⟨1, 1, none, none⟩, ⟨2, 1, some 100, none⟩],
   [⟨1, 2, 0, some 110, none, none, none, none, none, none, none⟩]⟩

/-- A provider row with a price and no fundamentals. -/
def c6hist : MarketSvc.FetchRow := ⟨some 2, none, none, none, none, none, none, none⟩

/-- Reference values: price 4, PE 20, PB 6, market cap 1000, EPS 5. -/
def c6rv : MarketSvc.RefVals := ⟨some 20, some 6, some 1000, some 5, some 4⟩

/-- The most recent prior record used by the today-fallback witness. -/
def c7L : MarketRow := ⟨1, 1, 0, some 33, some 7, some 1, some 12, some 2, some 500, some 3, none⟩

/-- A successful later provider row for the today-overwrite witness. -/
def c7t : MarketSvc.FetchRow := ⟨some 35, none, none, none, none, none, none, none⟩

/-- Two distinct rows sharing (asset_id, date) = (1, 0). -/
def c8rows : List MarketRow :=
  [⟨1, 1, 0, some 10, none, none, none, none, none, none, none⟩,
   ⟨2, 1, 0, some 11, none, none, none, none, none, none, none⟩]

/-- A database with one asset and an empty market table. -/
def c8db : DB := ⟨[⟨1, true⟩], [⟨1, 1, none, none⟩], []⟩

/-- A payload for (asset 1, day 0). -/
def c8p : Payload := ⟨0, some 10, none, none, none, none, none, none, none⟩

/- ===== Helper lemmas ===== -/

theorem batchGo_counts (run : Nat → MarketSvc.UpdOutcome) (l : List AssetRec) :
    (MarketSvc.batchGo run l).1 + (MarketSvc.batchGo run l).2.1 = l.length ∧
    (MarketSvc.batchGo run l).2.2.map (fun d => d.asset_id) = l.map (fun a => a.id) := by
  induction l with
  | nil => simp [MarketSvc.batchGo]
  | cons a rest ih =>
    obtain ⟨ih1, ih2⟩ := ih
    cases hr : run a.id with
    | ok ok =>
      cases ok
      · exact ⟨by simp only [MarketSvc.batchGo, hr, List.length_cons]; omega,
          by simpa [MarketSvc.batchGo, hr] using ih2⟩
      · exact ⟨by simp only [MarketSvc.batchGo, hr, List.length_cons]; omega,
          by simpa [MarketSvc.batchGo, hr] using ih2⟩
    | raised =>
      exact ⟨by simp only [MarketSvc.batchGo, hr, List.length_cons]; omega,
        by simpa [MarketSvc.batchGo, hr] using ih2⟩

theorem pickBest_go_mem (cond : MarketRow → Bool) (better : MarketRow → MarketRow → Bool) :
    ∀ (rows : List MarketRow) (acc : Option MarketRow) (r : MarketRow),
      List.foldl
        (fun acc r =>
          if cond r then
            match acc with
            | none => some r
            | some b => if better b r then some r else some b
          else acc)
        acc rows = some r →
      acc = some r ∨ r ∈ rows := by
  intro rows
  induction rows with
  | nil => exact fun acc r h => Or.inl h
  | cons x xs ih =>
    intro acc r h
    rcases ih _ r h with hstep | hmem
    · simp only [] at hstep
      by_cases hc : cond x = true
      · rw [if_pos hc] at hstep
        cases acc with
        | none =>
          dsimp only at hstep
          rw [Option.some_inj] at hstep
          exact Or.inr (hstep ▸ List.mem_cons_self x xs)
        | some b =>
          dsimp only at hstep
          by_cases hb : better b x = true
          · rw [if_pos hb, Option.some_inj] at hstep
            exact Or.inr (hstep ▸ List.mem_cons_self x xs)
          · rw [if_neg hb] at hstep
            exact Or.inl hstep
      · rw [if_neg hc] at hstep
        exact Or.inl hstep
    · exact Or.inr (List.mem_cons_of_mem x hmem)

theorem pickBest_mem {cond : MarketRow → Bool} {better : MarketRow → MarketRow → Bool}
    {rows : List MarketRow} {r : MarketRow} (h : pickBest cond better rows = some r) :
    r ∈ rows := by
  rcases pickBest_go_mem cond better rows none r h with h' | h'
  · exact absurd h' (by simp)
  · exact h'

theorem latestOnOrBefore_mem {rows : List MarketRow} {aid : Nat} {d : Int} {r : MarketRow}
    (h : latestOnOrBefore rows aid d = some r) : r ∈ rows :=
  pickBest_mem h

theorem assignRanks_ranked (i : Nat) (l : List RatedEntry) :
    ∀ e ∈ assignRanks i l, e.rank ≠ none := by
  induction l generalizing i with
  | nil => intro e he; cases he
  | cons x rest ih =>
    intro e he
    rcases List.mem_cons.mp he with rfl | he
    · simp
    · exact ih (i + 1) e he

theorem assignRanks_mem_of (i : Nat) (l : List RatedEntry) (x : RatedEntry) (hx : x ∈ l) :
    ∃ e ∈ assignRanks i l, e.asset_id = x.asset_id := by
  induction l generalizing i with
  | nil => cases hx
  | cons y rest ih =>
    rcases List.mem_cons.mp hx with rfl | h
    · exact ⟨_, List.mem_cons_self _ _, rfl⟩
    · obtain ⟨e, he, hid⟩ := ih (i + 1) h
      exact ⟨e, List.mem_cons_of_mem _ he, hid⟩

theorem collect_spec (db : DB) (target : Int)
    (hclose : ∀ r ∈ db.market, r.close_price ≠ none) :
    ∀ l : List AssetRec, ∃ w wo, RankingSvc.collect db target l = some (w, wo) ∧
      (∀ e ∈ wo, e.rank = none ∧ e.change_rate = none) ∧
      (∀ a ∈ l, (∃ x ∈ w, x.asset_id = a.id) ∨ (∃ e ∈ wo, e.asset_id = a.id)) ∧
      (∀ a ∈ l, (RankingSvc.get_or_set_baseline_price a db = none ∨
                 RankingSvc.get_or_set_baseline_price a db = some 0) →
        ∃ e ∈ wo, e.asset_id = a.id) := by
  intro l
  induction l with
  | nil => exact ⟨[], [], rfl, by simp, by simp, by simp⟩
  | cons a rest ih =>
    obtain ⟨w, wo, hcoll, hwo, hmem, hbad⟩ := ih
    cases hmd : latestOnOrBefore db.market a.id target with
    | none =>
      refine ⟨w, ⟨a.id, a.user_id, none, none⟩ :: wo, ?_, ?_, ?_, ?_⟩
      · simp [RankingSvc.collect, hmd, hcoll]
      · intro e he
        rcases List.mem_cons.mp he with rfl | he
        · exact ⟨rfl, rfl⟩
        · exact hwo e he
      · intro b hb
        rcases List.mem_cons.mp hb with rfl | hb
        · exact Or.inr ⟨_, List.mem_cons_self _ _, rfl⟩
        · rcases hmem b hb with ⟨x, hx, hid⟩ | ⟨e, he, hid⟩
          · exact Or.inl ⟨x, hx, hid⟩
          · exact Or.inr ⟨e, List.mem_cons_of_mem _ he, hid⟩
      · intro b hb hbb
        rcases List.mem_cons.mp hb with rfl | hb
        · exact ⟨_, List.mem_cons_self _ _, rfl⟩
        · obtain ⟨e, he, hid⟩ := hbad b hb hbb
          exact ⟨e, List.mem_cons_of_mem _ he, hid⟩
    | some md =>
      by_cases hb : RankingSvc.get_or_set_baseline_price a db = none ∨
                    RankingSvc.get_or_set_baseline_price a db = some 0
      · refine ⟨w, ⟨a.id, a.user_id, none, none⟩ :: wo, ?_, ?_, ?_, ?_⟩
        · simp only [RankingSvc.collect, hmd]
          rw [if_pos hb, hcoll]
          rfl
        · intro e he
          rcases List.mem_cons.mp he with rfl | he
          · exact ⟨rfl, rfl⟩
          · exact hwo e he
        · intro b' hb'
          rcases List.mem_cons.mp hb' with rfl | hb'
          · exact Or.inr ⟨_, List.mem_cons_self _ _, rfl⟩
          · rcases hmem b' hb' with ⟨x, hx, hid⟩ | ⟨e, he, hid⟩
            · exact Or.inl ⟨x, hx, hid⟩
            · exact Or.inr ⟨e, List.mem_cons_of_mem _ he, hid⟩
        · intro b' hb' hbb
          rcases List.mem_cons.mp hb' with rfl | hb'
          · exact ⟨_, List.mem_cons_self _ _, rfl⟩
          · obtain ⟨e, he, hid⟩ := hbad b' hb' hbb
            exact ⟨e, List.mem_cons_of_mem _ he, hid⟩
      · rcases hq : RankingSvc.get_or_set_baseline_price a db with _ | q
        · exact absurd (Or.inl hq) hb
        · have hq0 : q ≠ 0 := fun h0 => hb (Or.inr (by rw [hq, h0]))
          have hmdmem : md ∈ db.market := latestOnOrBefore_mem hmd
          rcases hc : md.close_price with _ | c
          · exact absurd hc (hclose md hmdmem)
          · refine ⟨⟨a.id, a.user_id, ((c - q) / q) * 100⟩ :: w, wo, ?_, hwo, ?_, ?_⟩
            · simp only [RankingSvc.collect, hmd]
              rw [if_neg hb]
              simp only [hq, calculate_change_rate_checked, hc, if_neg hq0, hcoll]
              rfl
            · intro b' hb'
              rcases List.mem_cons.mp hb' with rfl | hb'
              · exact Or.inl ⟨_, List.mem_cons_self _ _, rfl⟩
              · rcases hmem b' hb' with ⟨x, hx, hid⟩ | ⟨e, he, hid⟩
                · exact Or.inl ⟨x, List.mem_cons_of_mem _ hx, hid⟩
                · exact Or.inr ⟨e, he, hid⟩
            · intro b' hb' hbb
              rcases List.mem_cons.mp hb' with rfl | hb'
              · refine absurd hbb ?_
                rw [hq]
                rintro (h1 | h1)
                · simp at h1
                · rw [Option.some_inj] at h1
                  exact hq0 h1
              · exact hbad b' hb' hbb

theorem scanMissing_nil (rows : List MarketRow) (aid : Nat) (today : Int)
    (h : ∀ d : Int, BASELINE_DATE ≤ d → d < today → is_trading_day d = true →
      ∃ r, findRecord rows aid d = some r ∧ MarketSvc.has_price r = true ∧
        MarketSvc.has_pe r = true ∧ MarketSvc.has_pb r = true) :
    ∀ (fuel : Nat) (cd : Int) (dc : Nat), cd < today →
      MarketSvc.scanMissing rows aid fuel cd dc = [] := by
  intro fuel
  induction fuel with
  | zero => intro cd dc _; rfl
  | succ n ih =>
    intro cd dc hcd
    by_cases hcond : BASELINE_DATE ≤ cd ∧ dc < 5
    · by_cases htrade : is_trading_day cd = true
      · obtain ⟨r, hfind, hp, hpe, hpb⟩ := h cd hcond.1 hcd htrade
        have hcomplete : (MarketSvc.has_price r && MarketSvc.has_metrics r &&
            MarketSvc.has_pe r && MarketSvc.has_pb r) = true := by
          simp [MarketSvc.has_metrics, hp, hpe, hpb]
        simp only [MarketSvc.scanMissing, if_pos hcond, htrade, Bool.not_true,
          Bool.false_eq_true, if_false, hfind, hcomplete, if_true]
        exact ih (cd - 1) (dc + 1) (by omega)
      · have htrade' : is_trading_day cd = false := by
          revert htrade
          cases is_trading_day cd
          · intro _; rfl
          · intro hcontra; exact absurd rfl hcontra
        simp only [MarketSvc.scanMissing, if_pos hcond, htrade', Bool.not_false, if_true]
        exact ih (cd - 1) dc (by omega)
    · simp only [MarketSvc.scanMissing, if_neg hcond]

theorem findRecord_updateFirst (f : MarketRow → MarketRow) (aid : Nat) (d : Int)
    (hf : ∀ r, (f r).asset_id = r.asset_id ∧ (f r).date = r.date) :
    ∀ rows, findRecord (MarketSvc.updateFirst f aid d rows) aid d =
      (findRecord rows aid d).map f := by
  intro rows
  induction rows with
  | nil => rfl
  | cons r rest ih =>
    by_cases hk : (r.asset_id == aid && r.date == d) = true
    · have hk' : ((f r).asset_id == aid && (f r).date == d) = true := by
        rw [(hf r).1, (hf r).2]; exact hk
      simp only [MarketSvc.updateFirst, if_pos hk, findRecord, List.find?, hk, hk']
      rfl
    · have hkf : (r.asset_id == aid && r.date == d) = false := by
        revert hk
        cases r.asset_id == aid && r.date == d
        · intro _; rfl
        · intro hcontra; exact absurd rfl hcontra
      simp only [MarketSvc.updateFirst, if_neg hk, findRecord, List.find?, hkf]
      exact ih

theorem findRecord_append_of_none (rows : List MarketRow) (aid : Nat) (d : Int)
    (r0 : MarketRow) (h : findRecord rows aid d = none)
    (h1 : r0.asset_id = aid) (h2 : r0.date = d) :
    findRecord (rows ++ [r0]) aid d = some r0 := by
  unfold findRecord at h ⊢
  rw [List.find?_append, h]
  simp [h1, h2]

theorem todayRefresh_success (rows : List MarketRow) (aid : Nat) (today : Int)
    (t : MarketSvc.FetchRow) (hp : ℚ)
    (ht : t.close_price = some hp) (hhp : hp ≠ 0) :
    ∃ r, findRecord (MarketSvc.todayRefresh rows aid today (some t)).rows aid today = some r ∧
      r.close_price = some hp ∧
      (MarketSvc.todayRefresh rows aid today (some t)).today_is_temporary = false ∧
      (MarketSvc.todayRefresh rows aid today (some t)).today_updated = true := by
  cases hfind : findRecord rows aid today with
  | some e =>
    refine ⟨MarketSvc.overwriteToday e t, ?_, ?_, ?_, ?_⟩
    · simp only [MarketSvc.todayRefresh, ht, if_neg hhp, hfind]
      rw [findRecord_updateFirst (fun e => MarketSvc.overwriteToday e t) aid today
        (fun r => ⟨rfl, rfl⟩) rows, hfind]
      rfl
    · simp [MarketSvc.overwriteToday, ht]
    · simp [MarketSvc.todayRefresh, ht, hhp, hfind]
    · simp [MarketSvc.todayRefresh, ht, hhp, hfind]
  | none =>
    refine ⟨MarketSvc.mkTodayRow (MarketSvc.nextId rows) aid today t, ?_, ?_, ?_, ?_⟩
    · simp only [MarketSvc.todayRefresh, ht, if_neg hhp, hfind]
      exact findRecord_append_of_none rows aid today _ hfind rfl rfl
    · simp [MarketSvc.mkTodayRow, ht]
    · simp [MarketSvc.todayRefresh, ht, hhp, hfind]
    · simp [MarketSvc.todayRefresh, ht, hhp, hfind]

theorem upsertRow_mem (aid nid : Nat) (p : Payload) :
    ∀ rows s, s ∈ (MarketSvc.upsertRow aid nid p rows).1 →
      (∃ x ∈ rows, s.asset_id = x.asset_id ∧ s.date = x.date) ∨
      (s.asset_id = aid ∧ s.date = p.date) := by
  intro rows
  induction rows with
  | nil =>
    intro s hs
    simp only [MarketSvc.upsertRow, List.mem_singleton] at hs
    subst hs
    exact Or.inr ⟨rfl, rfl⟩
  | cons r rest ih =>
    intro s hs
    by_cases hk : (r.asset_id == aid && r.date == p.date) = true
    · simp only [MarketSvc.upsertRow, if_pos hk] at hs
      rcases List.mem_cons.mp hs with rfl | hs
      · exact Or.inl ⟨r, List.mem_cons_self _ _, rfl, rfl⟩
      · exact Or.inl ⟨s, List.mem_cons_of_mem _ hs, rfl, rfl⟩
    · simp only [MarketSvc.upsertRow, if_neg hk] at hs
      rcases List.mem_cons.mp hs with rfl | hs
      · exact Or.inl ⟨s, List.mem_cons_self _ _, rfl, rfl⟩
      · rcases ih s hs with ⟨x, hx, he⟩ | he
        · exact Or.inl ⟨x, List.mem_cons_of_mem _ hx, he⟩
        · exact Or.inr he

theorem upsertRow_uniq (aid nid : Nat) (p : Payload) :
    ∀ rows, MarketSvc.UniqKey rows → MarketSvc.UniqKey (MarketSvc.upsertRow aid nid p rows).1 := by
  intro rows
  induction rows with
  | nil =>
    intro _
    exact List.pairwise_singleton _ _
  | cons r rest ih =>
    intro h
    obtain ⟨hr, hrest⟩ := List.pairwise_cons.mp h
    by_cases hk : (r.asset_id == aid && r.date == p.date) = true
    · simp only [MarketSvc.upsertRow, if_pos hk]
      exact List.pairwise_cons.mpr ⟨fun s hs => hr s hs, hrest⟩
    · simp only [MarketSvc.upsertRow, if_neg hk]
      refine List.pairwise_cons.mpr ⟨?_, ih hrest⟩
      intro s hs
      rcases upsertRow_mem aid nid p rest s hs with ⟨x, hx, he1, he2⟩ | ⟨he1, he2⟩
      · intro ⟨ha, hd⟩
        exact hr x hx ⟨ha.trans he1, hd.trans he2⟩
      · intro ⟨ha, hd⟩
        rw [he1] at ha
        rw [he2] at hd
        simp only [Bool.and_eq_true, beq_iff_eq] at hk
        exact hk ⟨ha, hd⟩

theorem upsert_update_length (aid nid : Nat) (p : Payload) :
    ∀ rows e, findRecord rows aid p.date = some e →
      (MarketSvc.upsertRow aid nid p rows).1.length = rows.length ∧
      (MarketSvc.upsertRow aid nid p rows).2 = true := by
  intro rows
  induction rows with
  | nil => intro e he; cases he
  | cons r rest ih =>
    intro e he
    by_cases hk : (r.asset_id == aid && r.date == p.date) = true
    · have hk2 : r.asset_id = aid ∧ r.date = p.date := by simpa using hk
      simp [MarketSvc.upsertRow, hk2]
    · have hkf : (r.asset_id == aid && r.date == p.date) = false := by
        revert hk
        cases r.asset_id == aid && r.date == p.date
        · intro _; rfl
        · intro hcontra; exact absurd rfl hcontra
      unfold findRecord at he
      simp only [List.find?, hkf] at he
      obtain ⟨h1, h2⟩ := ih e he
      simp only [MarketSvc.upsertRow, if_neg hk, List.length_cons]
      exact ⟨by rw [h1], h2⟩

theorem storeLoop_uniq (aid : Nat) :
    ∀ (ps : List Payload) (rows : List MarketRow) (a : AssetRec),
      MarketSvc.UniqKey rows → MarketSvc.UniqKey (MarketSvc.storeLoop aid ps rows a).1 := by
  intro ps
  induction ps with
  | nil => intro rows a h; exact h
  | cons p rest ih =>
    intro rows a h
    exact ih _ _ (upsertRow_uniq aid (MarketSvc.nextId rows) p rows h)

/- ===== Claims ===== -/

/-- C10: the change-rate computation is total — when the resolved baseline
price is null or zero it returns 0.0 instead of raising, and the division is
only reached when the baseline is non-null and non-zero, in which case the
result is ((price - baseline) / baseline) * 100. -/
theorem c10_change_rate_total (p : ℚ) (b : Option ℚ) :
    (b = none ∨ b = some 0 → calculate_change_rate p b = 0) ∧
    (∀ q : ℚ, b = some q → q ≠ 0 → calculate_change_rate p b = ((p - q) / q) * 100) := by
  constructor
  · rintro (rfl | rfl) <;> simp [calculate_change_rate]
  · rintro q rfl hq
    simp [calculate_change_rate, hq]

/-- C10 witness: the theorem applied at a null baseline and at the concrete
pair (price 110, baseline 100). -/
theorem c10_witness :
    calculate_change_rate 110 none = 0 ∧
    calculate_change_rate 110 (some 100) = ((110 - 100) / 100) * 100 :=
  ⟨(c10_change_rate_total 110 none).1 (Or.inl rfl),
   (c10_change_rate_total 110 (some 100)).2 100 rfl (by norm_num)⟩

/-- C5 counterexample: normalization is case-sensitive, so the lowercase
prefix of 'sh601727' is not stripped, and for '601727.sz' the lowercase
suffix survives and the symbol is classified by the leading digit 6 as
exchange A ('.SS'), not exchange B. -/
theorem c5_counterexample :
    normalize_stock_code "sh601727" = "sh601727" ∧
    normalize_stock_code "sh601727" ≠ "601727" ∧
    convert_to_yfinance_symbol "601727.sz" = "601727.sz.SS" := by
  refine ⟨by decide, by decide, by decide⟩

/-- C5 amended: uppercase exchange prefixes and suffixes are stripped and the
exchange is inferred from the leading digit of the remaining code (6 gives
'.SS', 0 or 3 give '.SZ', anything else defaults to '.SS'); lowercase
prefixes/suffixes are left in place. -/
theorem c5_normalization :
    normalize_stock_code "SH601727" = "601727" ∧
    normalize_stock_code "SZ300857" = "300857" ∧
    normalize_stock_code "601727.SH" = "601727" ∧
    normalize_stock_code "300857.SZ" = "300857" ∧
    normalize_stock_code "601727.SS" = "601727" ∧
    normalize_stock_code "601727" = "601727" ∧
    convert_to_yfinance_symbol "SH601727" = "601727.SS" ∧
    convert_to_yfinance_symbol "601727.SH" = "601727.SS" ∧
    convert_to_yfinance_symbol "300857.SZ" = "300857.SZ" ∧
    convert_to_yfinance_symbol "000001" = "000001.SZ" ∧
    convert_to_yfinance_symbol "900001" = "900001.SS" ∧
    normalize_stock_code "sh601727" = "sh601727" := by
  refine ⟨by decide, by decide, by decide, by decide, by decide, by decide,
    by decide, by decide, by decide, by decide, by decide, by decide⟩

/-- C3 counterexample: an upsert whose payload omits volume replaces the
stored non-null volume with null. -/
theorem c3_counterexample :
    c3row.volume = some 100 ∧ c3p.volume = none ∧
    (MarketSvc.updateExisting c3row c3p).volume = none := by
  refine ⟨by decide, by decide, by decide⟩

/-- C3 amended: in the update path of store_market_data, the fundamental
fields (pe_ratio, pb_ratio, market_cap, eps_forecast) keep their stored
values when the incoming payload omits them, but close_price, volume and
turnover_rate are overwritten unconditionally with the incoming values (null
when omitted). -/
theorem c3_update_frame (e : MarketRow) (p : Payload)
    (hpe : p.pe = none) (hpb : p.pb = none) (hmc : p.market_cap = none)
    (heps : p.eps_forecast = none) :
    (MarketSvc.updateExisting e p).pe = e.pe ∧
    (MarketSvc.updateExisting e p).pb = e.pb ∧
    (MarketSvc.updateExisting e p).market_cap = e.market_cap ∧
    (MarketSvc.updateExisting e p).eps_forecast = e.eps_forecast ∧
    (MarketSvc.updateExisting e p).close_price = p.close_price ∧
    (MarketSvc.updateExisting e p).volume = p.volume ∧
    (MarketSvc.updateExisting e p).turnover_rate = p.turnover_rate := by
  simp [MarketSvc.updateExisting, hpe, hpb, hmc, heps]

/-- C3 witness: the frame theorem applied to the concrete record and the
close-only payload. -/
theorem c3_witness :
    (MarketSvc.updateExisting c3row c3p).pe = c3row.pe ∧
    (MarketSvc.updateExisting c3row c3p).volume = c3p.volume :=
  ⟨(c3_update_frame c3row c3p rfl rfl rfl rfl).1,
   (c3_update_frame c3row c3p rfl rfl rfl rfl).2.2.2.2.2.1⟩

/-- C9: a multi-instrument batch update processes every instrument even when
some updates fail or raise: the result's total is the number of assets, the
success and failed counters sum to it, and the details list has exactly one
entry per asset, in order. -/
theorem c9_batch_isolation (assets : List AssetRec) (run : Nat → MarketSvc.UpdOutcome) :
    (MarketSvc.update_all_assets_data assets run).total = assets.length ∧
    (MarketSvc.update_all_assets_data assets run).success
      + (MarketSvc.update_all_assets_data assets run).failed = assets.length ∧
    (MarketSvc.update_all_assets_data assets run).details.map (fun d => d.asset_id)
      = assets.map (fun a => a.id) := by
  obtain ⟨h1, h2⟩ := batchGo_counts run assets
  exact ⟨rfl, h1, h2⟩

/-- C4 counterexample: in ranking_calculator.py, an asset with no stored
baseline and no record on the baseline date resolves to an unusable baseline
even though a record exists after the baseline date; the third step of the
chain exists only in ranking.py. -/
theorem c4_counterexample :
    RankingCalc.get_or_set_baseline_price c4asset c4db = none ∧
    earliestOnOrAfter c4db.market c4asset.id BASELINE_DATE = some c4row ∧
    RankingSvc.get_or_set_baseline_price c4asset c4db = some 50 := by
  refine ⟨by decide, by decide, by decide⟩

/-- C4 amended: the three-step baseline chain (stored baseline; close on the
baseline date; first close on or after the baseline date; otherwise unusable)
is implemented by get_or_set_baseline_price in services/ranking.py; the
variant in services/ranking_calculator.py stops after the second step. -/
theorem c4_baseline_chain (a : AssetRec) (db : DB) :
    (∀ v : ℚ, a.baseline_price = some v →
      RankingSvc.get_or_set_baseline_price a db = some v) ∧
    (a.baseline_price = none →
      ∀ r, findRecord db.market a.id BASELINE_DATE = some r →
        RankingSvc.get_or_set_baseline_price a db = r.close_price) ∧
    (a.baseline_price = none → findRecord db.market a.id BASELINE_DATE = none →
      ∀ r, earliestOnOrAfter db.market a.id BASELINE_DATE = some r →
        RankingSvc.get_or_set_baseline_price a db = r.close_price) ∧
    (a.baseline_price = none → findRecord db.market a.id BASELINE_DATE = none →
      earliestOnOrAfter db.market a.id BASELINE_DATE = none →
      RankingSvc.get_or_set_baseline_price a db = none) := by
  refine ⟨?_, ?_, ?_, ?_⟩
  · rintro v hv
    simp [RankingSvc.get_or_set_baseline_price, hv]
  · rintro h r hr
    simp [RankingSvc.get_or_set_baseline_price, h, hr]
  · rintro h h2 r hr
    simp [RankingSvc.get_or_set_baseline_price, h, h2, hr]
  · rintro h h2 h3
    simp [RankingSvc.get_or_set_baseline_price, h, h2, h3]

/-- C4 witness: the chain applied to the concrete asset with no baseline and
no baseline-date record but a later record: the third step returns that
record's close price. -/
theorem c4_witness :
    RankingSvc.get_or_set_baseline_price c4asset c4db = c4row.close_price :=
  (c4_baseline_chain c4asset c4db).2.2.1 rfl (by decide) c4row (by decide)

/-- C1 counterexample: in ranking_calculator.py, the single active asset has
no usable baseline and the ranking output is empty — the instrument is
silently dropped instead of appearing with a null rank. -/
theorem c1_counterexample :
    (activeAssets c1db).length = 1 ∧
    RankingCalc.calculate_asset_rankings c1db 0 = some [] := by
  constructor
  · decide
  · simp only [RankingCalc.calculate_asset_rankings]
    rw [show RankingCalc.collectEntries c1db 0 (activeAssets c1db) = some [] from by decide]
    simp [sortDesc, assignRanks]

/-- C1 amended: in services/ranking.py (the module used by api/routes.py),
every active instrument appears in the ranking output and the computation
never raises (given the schema's non-null close prices); instruments lacking a
usable baseline appear with a null change rate and a null rank, placed after
every ranked entry; the variant in services/ranking_calculator.py silently
drops such instruments. -/
theorem c1_ranking_inclusion (db : DB) (target : Int)
    (hclose : ∀ r ∈ db.market, r.close_price ≠ none) :
    ∃ out, RankingSvc.calculate_asset_rankings db target = some out ∧
      (∀ a ∈ activeAssets db, ∃ e ∈ out, e.asset_id = a.id) ∧
      (∃ pre post, out = pre ++ post ∧ (∀ e ∈ pre, e.rank ≠ none) ∧
        (∀ e ∈ post, e.rank = none ∧ e.change_rate = none)) ∧
      (∀ a ∈ activeAssets db,
        (RankingSvc.get_or_set_baseline_price a db = none ∨
         RankingSvc.get_or_set_baseline_price a db = some 0) →
        ∃ e ∈ out, e.asset_id = a.id ∧ e.rank = none ∧ e.change_rate = none) := by
  obtain ⟨w, wo, hcoll, hwo, hmem, hbad⟩ := collect_spec db target hclose (activeAssets db)
  refine ⟨assignRanks 0 (sortDesc w) ++ wo, ?_, ?_,
    ⟨_, _, rfl, assignRanks_ranked 0 _, hwo⟩, ?_⟩
  · simp [RankingSvc.calculate_asset_rankings, hcoll]
  · intro a ha
    rcases hmem a ha with ⟨x, hx, hid⟩ | ⟨e, he, hid⟩
    · have hx' : x ∈ sortDesc w := List.mem_mergeSort.mpr hx
      obtain ⟨e, he, hid2⟩ := assignRanks_mem_of 0 _ x hx'
      exact ⟨e, List.mem_append_left _ he, hid2.trans hid⟩
    · exact ⟨e, List.mem_append_right _ he, hid⟩
  · intro a ha hbb
    obtain ⟨e, he, hid⟩ := hbad a ha hbb
    obtain ⟨hrk, hcr⟩ := hwo e he
    exact ⟨e, List.mem_append_right _ he, hid, hrk, hcr⟩

/-- C1 witness: in the concrete two-asset database the baseline-less asset 1
appears in the output of the ranking service with null rank and null change
rate. -/
theorem c1_witness :
    ∃ out, RankingSvc.calculate_asset_rankings c1wdb 0 = some out ∧
      ∃ e ∈ out, e.asset_id = 1 ∧ e.rank = none ∧ e.change_rate = none := by
  obtain ⟨out, hout, _, _, hbad⟩ := c1_ranking_inclusion c1wdb 0 (by decide)
  obtain ⟨e, he, h1, h2, h3⟩ :=
    hbad ⟨1, 1, none, none⟩ (by decide) (Or.inl (by decide))
  exact ⟨out, hout, e, he, h1, h2, h3⟩

/-- C2 counterexample: a stored record with a close price and a non-zero P/E
ratio (one non-zero fundamental ratio) but a null P/B is not skipped: the
gap-fill pass issues a provider request for its date, because the skip
condition requires price, non-zero P/E and non-zero P/B all at once. -/
theorem c2_counterexample :
    MarketSvc.has_price c2row = true ∧ MarketSvc.has_pe c2row = true ∧
    c2row.pb = none ∧
    (MarketSvc.gapFillPass [c2row] 1 1 (fun _ => none)).2 = [0] := by
  refine ⟨by decide, by decide, by decide, by decide⟩

/-- C2 amended: the gap filler skips a stored past-day record (issuing no
provider request) when it has a close price AND a non-zero P/E AND a non-zero
P/B — both ratios, not just one; consequently a second gap-fill run over a
window whose trading days all carry such fully settled records issues zero
provider requests. -/
theorem c2_gap_idempotence (rows : List MarketRow) (aid : Nat) (today : Int)
    (fetch : Int → Option MarketSvc.FetchRow)
    (h : ∀ d : Int, BASELINE_DATE ≤ d → d < today → is_trading_day d = true →
      ∃ r, findRecord rows aid d = some r ∧ MarketSvc.has_price r = true ∧
        MarketSvc.has_pe r = true ∧ MarketSvc.has_pb r = true) :
    (MarketSvc.gapFillPass rows aid today fetch).2 = [] := by
  have hscan := scanMissing_nil rows aid today h
    ((today - BASELINE_DATE).toNat + 1) (today - 1) 0 (by omega)
  simp [MarketSvc.gapFillPass, hscan, MarketSvc.processDates]

/-- C2 witness: over a window whose only trading day carries a complete record
(price, P/E 20, P/B 3), the gap-fill pass issues no provider request. -/
theorem c2_witness : (MarketSvc.gapFillPass [c2wrow] 1 1 (fun _ => none)).2 = [] := by
  apply c2_gap_idempotence
  intro d h1 h2 _
  have h1' : (0 : Int) ≤ d := h1
  have hd : d = 0 := by omega
  subst hd
  exact ⟨c2wrow, by decide, by decide, by decide, by decide⟩

/-- C7: when the today request yields nothing (an empty list — exceptions are
swallowed into it by fetch_asset_data) and a prior stored record exists, a
record is written under today's date borrowing the close price and every
fundamental from the most recent prior record, and the update result is
flagged temporary; a later successful refresh overwrites the placeholder with
the provider price and drops the temporary flag. -/
theorem c7_today_fallback (rows : List MarketRow) (aid : Nat) (today : Int)
    (L : MarketRow) (t : MarketSvc.FetchRow) (hp : ℚ)
    (hL : latestBefore rows aid today = some L)
    (ht : t.close_price = some hp) (hhp : hp ≠ 0) :
    ((MarketSvc.todayRefresh rows aid today none).today_is_temporary = true ∧
     (MarketSvc.todayRefresh rows aid today none).today_updated = true ∧
     ∃ r, findRecord (MarketSvc.todayRefresh rows aid today none).rows aid today = some r ∧
       r.close_price = L.close_price ∧ r.volume = L.volume ∧
       r.turnover_rate = L.turnover_rate ∧ r.pe = L.pe ∧ r.pb = L.pb ∧
       r.market_cap = L.market_cap ∧ r.eps_forecast = L.eps_forecast) ∧
    (∃ r2, findRecord (MarketSvc.todayRefresh
        (MarketSvc.todayRefresh rows aid today none).rows aid today (some t)).rows aid today
        = some r2 ∧ r2.close_price = some hp ∧
      (MarketSvc.todayRefresh (MarketSvc.todayRefresh rows aid today none).rows aid today
        (some t)).today_is_temporary = false) := by
  constructor
  · cases hfind : findRecord rows aid today with
    | some e =>
      refine ⟨?_, ?_, MarketSvc.copyFrom e L, ?_, rfl, rfl, rfl, rfl, rfl, rfl, rfl⟩
      · simp [MarketSvc.todayRefresh, hL, hfind]
      · simp [MarketSvc.todayRefresh, hL, hfind]
      · simp only [MarketSvc.todayRefresh, hL, hfind]
        rw [findRecord_updateFirst (fun e => MarketSvc.copyFrom e L) aid today
          (fun r => ⟨rfl, rfl⟩) rows, hfind]
        rfl
    | none =>
      refine ⟨?_, ?_, MarketSvc.mkCopyRow (MarketSvc.nextId rows) aid today L,
        ?_, rfl, rfl, rfl, rfl, rfl, rfl, rfl⟩
      · simp [MarketSvc.todayRefresh, hL, hfind]
      · simp [MarketSvc.todayRefresh, hL, hfind]
      · simp only [MarketSvc.todayRefresh, hL, hfind]
        exact findRecord_append_of_none rows aid today _ hfind rfl rfl
  · obtain ⟨r2, h1, h2, h3, _⟩ :=
      todayRefresh_success (MarketSvc.todayRefresh rows aid today none).rows aid today t hp ht hhp
    exact ⟨r2, h1, h2, h3⟩

/-- C7 witness: with one prior record (close 33) and an empty today fetch, the
today record is created with close 33 and flagged temporary; a later fetch
returning close 35 overwrites it. -/
theorem c7_witness :
    (MarketSvc.todayRefresh [c7L] 1 1 none).today_is_temporary = true ∧
    (∃ r, findRecord (MarketSvc.todayRefresh [c7L] 1 1 none).rows 1 1 = some r ∧
      r.close_price = c7L.close_price) ∧
    (∃ r2, findRecord (MarketSvc.todayRefresh
        (MarketSvc.todayRefresh [c7L] 1 1 none).rows 1 1 (some c7t)).rows 1 1 = some r2 ∧
      r2.close_price = some 35) := by
  obtain ⟨⟨h1, _, r, hr, hc, _⟩, r2, hr2, hc2, _⟩ :=
    c7_today_fallback [c7L] 1 1 c7L c7t 35 (by decide) (by decide) (by decide)
  exact ⟨h1, ⟨r, hr, hc⟩, ⟨r2, hr2, hc2⟩⟩

/-- C8 counterexample: the market_data table schema accepts two rows sharing
(asset_id, date) — it has a unique primary key id and NOT NULL columns but
declares no unique constraint on (asset_id, date), so uniqueness is NOT
enforced at the storage layer. -/
theorem c8_counterexample :
    MarketSvc.marketDataSchemaOk c8rows ∧ ¬ MarketSvc.UniqKey c8rows := by
  constructor
  · refine ⟨?_, ?_⟩
    · decide
    · intro r hr
      rcases List.mem_cons.mp hr with rfl | hr
      · decide
      · rcases List.mem_cons.mp hr with rfl | hr
        · decide
        · cases hr
  · intro h
    obtain ⟨hhead, _⟩ := List.pairwise_cons.mp h
    exact hhead _ (List.mem_cons_self _ _) ⟨rfl, rfl⟩

/-- C8 amended: at-most-one-row-per-(asset_id, date) is maintained by the
store writer's look-up-then-update logic, not by the schema: store_market_data
preserves the invariant for any payload batch, and an upsert whose key already
has a row updates it in place without changing the row count; but the schema
itself (see the counterexample) does not enforce uniqueness. -/
theorem c8_upsert_uniqueness (db : DB) (aid : Nat) (ps : List Payload)
    (h : MarketSvc.UniqKey db.market) :
    MarketSvc.UniqKey (MarketSvc.store_market_data db aid ps).1.market ∧
    (∀ nid : Nat, ∀ p : Payload, ∀ e : MarketRow,
      findRecord db.market aid p.date = some e →
      (MarketSvc.upsertRow aid nid p db.market).1.length = db.market.length ∧
      (MarketSvc.upsertRow aid nid p db.market).2 = true) := by
  constructor
  · unfold MarketSvc.store_market_data
    cases hfind : db.assets.find? (fun a => a.id == aid) with
    | none => exact h
    | some a => exact storeLoop_uniq aid ps db.market a h
  · intro nid p e he
    exact upsert_update_length aid nid p db.market e he

/-- C8 witness: storing the same (asset 1, day 0) payload twice into an empty
store leaves exactly one row, and the invariant holds. -/
theorem c8_witness :
    MarketSvc.UniqKey (MarketSvc.store_market_data c8db 1 [c8p, c8p]).1.market ∧
    (MarketSvc.store_market_data c8db 1 [c8p, c8p]).1.market.length = 1 := by
  have h := c8_upsert_uniqueness c8db 1 [c8p, c8p] List.Pairwise.nil
  exact ⟨h.1, by decide⟩

/-- C6: when a historical day has a price but the provider returned no
fundamentals and a reference with a usable price exists, each derived ratio is
the reference ratio scaled by the price ratio, and the EPS estimate is
carried forward unchanged. -/
theorem c6_ratio_derivation (nid aid : Nat) (d : Int) (hist : MarketSvc.FetchRow)
    (rv : MarketSvc.RefVals) (hp p0 rpe : ℚ)
    (hclose : hist.close_price = some hp) (hhp : hp ≠ 0)
    (hpemiss : hist.pe = none) (hrefpe : rv.pe = some rpe) (hrpe : rpe ≠ 0)
    (hrefprice : rv.price = some p0) (hp0 : 0 < p0) :
    ∃ r, MarketSvc.buildNewHistRecord nid aid d hist rv = some r ∧
      r.close_price = some hp ∧
      r.pe = some (rpe * (hp / p0)) ∧
      (∀ rpb : ℚ, hist.pb = none → rv.pb = some rpb → rpb ≠ 0 →
        r.pb = some (rpb * (hp / p0))) ∧
      (∀ rm : ℚ, hist.market_cap = none → rv.market_cap = some rm → rm ≠ 0 →
        r.market_cap = some (rm * (hp / p0))) ∧
      (∀ re : ℚ, hist.eps_forecast = none → rv.eps = some re → re ≠ 0 →
        r.eps_forecast = some re) := by
  have hg : (rpe != 0 && (p0 != 0 && decide (0 < p0))) = true := by
    simp [hrpe, ne_of_gt hp0, hp0]
  simp only [MarketSvc.buildNewHistRecord, hclose, if_neg hhp]
  refine ⟨_, rfl, rfl, ?_, ?_, ?_, ?_⟩
  · simp [hpemiss, MarketSvc.deriveRatio, hrefpe, hrefprice, hrpe, ne_of_gt hp0, hp0]
  · rintro rpb hmiss hrv hne
    simp [hmiss, MarketSvc.deriveRatio, hrv, hrefprice, hne, ne_of_gt hp0, hp0]
  · rintro rm hmiss hrv hne
    simp [hmiss, MarketSvc.deriveRatio, hrv, hrefprice, hne, ne_of_gt hp0, hp0]
  · rintro re hmiss hrv hne
    simp [hmiss, truthyQ, hrv, hne]

/-- C6 witness: with reference price 4 and PE 20, a day priced 2 (half the
reference) derives PE 10, PB 3 (from reference PB 6), and carries EPS 5
forward. -/
theorem c6_witness :
    ∃ r, MarketSvc.buildNewHistRecord 1 1 0 c6hist c6rv = some r ∧
      r.pe = some 10 ∧ r.pb = some 3 ∧ r.eps_forecast = some 5 := by
  obtain ⟨r, hr, _, hpe, hpb, _, heps⟩ :=
    c6_ratio_derivation 1 1 0 c6hist c6rv 2 4 20 rfl (by norm_num) rfl rfl
      (by norm_num) rfl (by norm_num)
  refine ⟨r, hr, ?_, ?_, ?_⟩
  · rw [hpe]; norm_num
  · rw [hpb 6 rfl rfl (by norm_num)]; norm_num
  · exact heps 5 rfl rfl (by norm_num)

end STB
